import Mathlib

/-!
Verification of the bert-squeeze distillation loss and pruning callbacks.

The definitions below are shallow embeddings of
`bert_squeeze/distillation/seq2seq_distiller.py` and
`bert_squeeze/utils/callbacks/pruning.py`.  Tensor entries are modelled as
rationals; per-position logits are an abstract type where only the masking
structure matters.
-/

namespace BertSqueeze

/-- The `DistillationLoss` value object (from `bert_squeeze.utils.types`)
returned by `Seq2SeqDistiller.loss`. -/
structure DistillationLoss where
  kd_loss : ℚ
  objective : ℚ
  full_loss : ℚ
  deriving Repr, DecidableEq

/-- Shallow embedding of `Seq2SeqDistiller.loss`.  Each sequence position
carries a logit row of abstract type `L` and an integer label.  `loss_ce`
stands for `self.loss_ce`, `loss_distill` for `self.loss_distill`, `alpha`
for `self.params.alpha`.  The code computes `active_idx = labels !=
ignore_index`, applies `loss_ce` to the rows selected by `active_idx` when
`active_idx.sum().item() > 0` (else an exact `0.0`), computes `kd_loss` on
the full logits, and returns
`(1 - alpha) * kd_loss + alpha * objective` as `full_loss`. -/
def seq2seqDistillerLoss {L : Type} (alpha : ℚ)
    (loss_ce : List L → List ℤ → ℚ) (loss_distill : List L → List L → ℚ)
    (teacher_logits student_logits : List L) (labels : List ℤ)
    (ignore_index : ℤ := -100) : DistillationLoss :=
  let activePairs := (student_logits.zip labels).filter
    (fun p => p.2 != ignore_index)
  let objective : ℚ :=
    if labels.countP (fun y => y != ignore_index) > 0 then
      loss_ce (activePairs.map Prod.fst) (activePairs.map Prod.snd)
    else 0
  let kd_loss := loss_distill teacher_logits student_logits
  { kd_loss := kd_loss
    objective := objective
    full_loss := (1 - alpha) * kd_loss + alpha * objective }

/-- The two divergence losses appearing in the `_set_objectives` dispatch
table `{"mse": torch.nn.MSELoss(), "kl": KLDivLoss()}`. -/
inductive DistillObjective
  | kl
  | mse
  deriving Repr, DecidableEq

/-- Shallow embedding of `Seq2SeqDistiller._set_objectives`: the key is
`self.params.get("distillation_loss", "kl")` and the dict lookup
`{"mse": ..., "kl": ...}[distillation_loss]` raises `KeyError(key)` —
an error carrying the invalid key — when the key is neither entry. -/
def setObjectives (cfg_distillation_loss : Option String) :
    Except String DistillObjective :=
  let distillation_loss := cfg_distillation_loss.getD "kl"
  if distillation_loss = "mse" then .ok .mse
  else if distillation_loss = "kl" then .ok .kl
  else .error distillation_loss

/-- The slice of `Seq2SeqDistiller` state produced by `__init__` that the
loss selection concerns: `__init__` calls `_set_objectives()` before
returning, so the dispatch-table lookup runs during construction. -/
structure Seq2SeqDistillerState where
  loss_distill : DistillObjective
  deriving Repr, DecidableEq

/-- Shallow embedding of the `_set_objectives` step of
`Seq2SeqDistiller.__init__`: construction fails exactly when the
dispatch-table lookup fails. -/
def seq2seqDistillerInit (cfg_distillation_loss : Option String) :
    Except String Seq2SeqDistillerState :=
  (setObjectives cfg_distillation_loss).map (fun o => { loss_distill := o })

/-- Filtering the zipped (logit, label) pairs by the active mask gives the
same list for two logit lists that agree at every active position. -/
theorem filter_zip_congr {L : Type} (ig : ℤ) :
    ∀ (labels : List ℤ) (s₁ s₂ : List L),
      s₁.length = labels.length → s₂.length = labels.length →
      (∀ i y, labels.get? i = some y → y ≠ ig → s₁.get? i = s₂.get? i) →
      (s₁.zip labels).filter (fun p => p.2 != ig)
        = (s₂.zip labels).filter (fun p => p.2 != ig) := by
  intro labels
  induction labels with
  | nil =>
    intro s₁ s₂ h1 h2 _
    rw [List.length_nil, List.length_eq_zero] at h1 h2
    subst h1; subst h2; rfl
  | cons y ys ih =>
    intro s₁ s₂ h1 h2 hagree
    match s₁, s₂ with
    | a :: as, b :: bs =>
      simp only [List.length_cons, Nat.succ.injEq] at h1 h2
      have htail : (as.zip ys).filter (fun p => p.2 != ig)
          = (bs.zip ys).filter (fun p => p.2 != ig) := by
        apply ih as bs h1 h2
        intro i z hz hne
        have := hagree (i + 1) z (by simpa using hz) hne
        simpa using this
      by_cases hy : y = ig
      · subst hy
        simp only [List.zip_cons_cons, List.filter_cons]
        simp only [bne_self_eq_false, Bool.false_eq_true, if_neg]
        exact htail
      · have hab : a = b := by
          have := hagree 0 y rfl hy
          simpa using this
        subst hab
        simp only [List.zip_cons_cons, List.filter_cons]
        exact if_congr Iff.rfl (by rw [htail]) htail

/-- C1: `Seq2SeqDistiller.loss` returns a `DistillationLoss` whose
`full_loss` equals `(1 - alpha) * kd_loss + alpha * objective`, the other
two components of the same value object, for every `alpha ∈ [0, 1]` and all
inputs. -/
theorem seq2seq_full_loss_convex_combination {L : Type} (alpha : ℚ)
    (loss_ce : List L → List ℤ → ℚ) (loss_distill : List L → List L → ℚ)
    (teacher_logits student_logits : List L) (labels : List ℤ)
    (ignore_index : ℤ) (h0 : 0 ≤ alpha) (h1 : alpha ≤ 1) :
    (seq2seqDistillerLoss alpha loss_ce loss_distill teacher_logits
        student_logits labels ignore_index).full_loss
      = (1 - alpha) * (seq2seqDistillerLoss alpha loss_ce loss_distill
          teacher_logits student_logits labels ignore_index).kd_loss
        + alpha * (seq2seqDistillerLoss alpha loss_ce loss_distill
            teacher_logits student_logits labels ignore_index).objective := rfl

/-- Witness for C1 at `alpha = 1/2` and concrete logits and labels. -/
theorem seq2seq_full_loss_convex_combination_witness :
    (0 : ℚ) ≤ 1/2 ∧ (1 : ℚ)/2 ≤ 1 ∧
    (seq2seqDistillerLoss (1/2) (fun l _ => l.sum) (fun t s => (t.sum - s.sum)^2)
        [4, 5] [1, 2] [7, -100] (-100)).full_loss
      = (1 - 1/2) * (seq2seqDistillerLoss (1/2) (fun l _ => l.sum)
            (fun t s => (t.sum - s.sum)^2) [4, 5] [1, 2] [7, -100] (-100)).kd_loss
        + 1/2 * (seq2seqDistillerLoss (1/2) (fun l _ => l.sum)
            (fun t s => (t.sum - s.sum)^2) [4, 5] [1, 2] [7, -100] (-100)).objective :=
  ⟨by norm_num, by norm_num,
    seq2seq_full_loss_convex_combination (1/2) (fun l _ => l.sum)
      (fun t s => (t.sum - s.sum)^2) [4, 5] [1, 2] [7, -100] (-100)
      (by norm_num) (by norm_num)⟩

/-- C2: in `Seq2SeqDistiller.loss`, (a) the `kd_loss` component is
`loss_distill` on the full, unmasked teacher and student logits — in
particular it does not depend on the labels at all; (b) the `objective`
component depends only on the logit rows at active positions (where the
label differs from `ignore_index`); (c) when every label equals
`ignore_index` the `objective` is exactly `0` and `full_loss` collapses to
`(1 - alpha) * kd_loss`. -/
theorem seq2seq_loss_ignore_index_masking {L : Type} (alpha : ℚ)
    (loss_ce : List L → List ℤ → ℚ) (loss_distill : List L → List L → ℚ)
    (teacher_logits student_logits student_logits' : List L)
    (labels labels' : List ℤ) (ignore_index : ℤ)
    (hlen : student_logits.length = labels.length)
    (hlen' : student_logits'.length = labels.length)
    (hagree : ∀ i y, labels.get? i = some y → y ≠ ignore_index →
        student_logits.get? i = student_logits'.get? i) :
    (seq2seqDistillerLoss alpha loss_ce loss_distill teacher_logits
        student_logits labels ignore_index).kd_loss
      = loss_distill teacher_logits student_logits
    ∧ (seq2seqDistillerLoss alpha loss_ce loss_distill teacher_logits
        student_logits labels' ignore_index).kd_loss
      = (seq2seqDistillerLoss alpha loss_ce loss_distill teacher_logits
          student_logits labels ignore_index).kd_loss
    ∧ (seq2seqDistillerLoss alpha loss_ce loss_distill teacher_logits
        student_logits labels ignore_index).objective
      = (seq2seqDistillerLoss alpha loss_ce loss_distill teacher_logits
          student_logits' labels ignore_index).objective
    ∧ ((∀ y ∈ labels, y = ignore_index) →
        (seq2seqDistillerLoss alpha loss_ce loss_distill teacher_logits
            student_logits labels ignore_index).objective = 0
        ∧ (seq2seqDistillerLoss alpha loss_ce loss_distill teacher_logits
            student_logits labels ignore_index).full_loss
          = (1 - alpha) * loss_distill teacher_logits student_logits) := by
  refine ⟨rfl, rfl, ?_, ?_⟩
  · have hfz := filter_zip_congr ignore_index labels student_logits
      student_logits' hlen hlen' hagree
    simp only [seq2seqDistillerLoss, hfz]
  · intro hall
    have hcount : labels.countP (fun y => y != ignore_index) = 0 := by
      rw [List.countP_eq_zero]
      intro y hy
      simpa using hall y hy
    constructor
    · simp only [seq2seqDistillerLoss, hcount]
      rfl
    · simp only [seq2seqDistillerLoss, hcount]
      norm_num

/-- Witness for C2 at the spec's scenario `labels = [-100, 1, 0, -100]`:
the two student-logit lists differ exactly at the ignored positions. -/
theorem seq2seq_loss_ignore_index_masking_witness :
    (seq2seqDistillerLoss (1/2) (fun l _ => l.sum) (fun t s => t.sum - s.sum)
        [1, 2, 3, 4] [(10 : ℚ), 20, 30, 40] [-100, 1, 0, -100] (-100)).kd_loss
      = (fun t s : List ℚ => t.sum - s.sum) [1, 2, 3, 4] [10, 20, 30, 40]
    ∧ (seq2seqDistillerLoss (1/2) (fun l _ => l.sum) (fun t s => t.sum - s.sum)
        [1, 2, 3, 4] [(10 : ℚ), 20, 30, 40] [5, 5, 5, 5] (-100)).kd_loss
      = (seq2seqDistillerLoss (1/2) (fun l _ => l.sum) (fun t s => t.sum - s.sum)
          [1, 2, 3, 4] [(10 : ℚ), 20, 30, 40] [-100, 1, 0, -100] (-100)).kd_loss
    ∧ (seq2seqDistillerLoss (1/2) (fun l _ => l.sum) (fun t s => t.sum - s.sum)
        [1, 2, 3, 4] [(10 : ℚ), 20, 30, 40] [-100, 1, 0, -100] (-100)).objective
      = (seq2seqDistillerLoss (1/2) (fun l _ => l.sum) (fun t s => t.sum - s.sum)
          [1, 2, 3, 4] [(99 : ℚ), 20, 30, 77] [-100, 1, 0, -100] (-100)).objective
    ∧ ((∀ y ∈ ([-100, 1, 0, -100] : List ℤ), y = -100) →
        (seq2seqDistillerLoss (1/2) (fun l _ => l.sum) (fun t s => t.sum - s.sum)
            [1, 2, 3, 4] [(10 : ℚ), 20, 30, 40] [-100, 1, 0, -100] (-100)).objective = 0
        ∧ (seq2seqDistillerLoss (1/2) (fun l _ => l.sum) (fun t s => t.sum - s.sum)
            [1, 2, 3, 4] [(10 : ℚ), 20, 30, 40] [-100, 1, 0, -100] (-100)).full_loss
          = (1 - 1/2) * (fun t s : List ℚ => t.sum - s.sum) [1, 2, 3, 4] [10, 20, 30, 40]) :=
  seq2seq_loss_ignore_index_masking (1/2) (fun l _ => l.sum)
    (fun t s => t.sum - s.sum) [1, 2, 3, 4] [(10 : ℚ), 20, 30, 40]
    [(99 : ℚ), 20, 30, 77] [-100, 1, 0, -100] [5, 5, 5, 5] (-100)
    (by decide) (by decide)
    (by
      intro i y hy hne
      match i with
      | 0 => simp at hy; omega
      | 1 => rfl
      | 2 => rfl
      | 3 => simp at hy; omega
      | (n + 4) => simp at hy)

/-- C8: constructing a `Seq2SeqDistiller` with a `distillation_loss` key
other than `"kl"` or `"mse"` fails during construction with an error that
carries the invalid key (never a silent default), while an absent key
defaults to the KL divergence without error. -/
theorem seq2seq_init_unknown_loss_key_fails (k : String)
    (hk1 : k ≠ "kl") (hk2 : k ≠ "mse") :
    seq2seqDistillerInit (some k) = .error k
    ∧ seq2seqDistillerInit none = .ok { loss_distill := .kl } := by
  constructor
  · simp [seq2seqDistillerInit, setObjectives, hk1, hk2, Except.map]
  · rfl

/-- Witness for C8 at the concrete invalid key `"cosine"`. -/
theorem seq2seq_init_unknown_loss_key_fails_witness :
    seq2seqDistillerInit (some "cosine") = .error "cosine"
    ∧ seq2seqDistillerInit none = .ok { loss_distill := .kl } :=
  seq2seq_init_unknown_loss_key_fails "cosine" (by decide) (by decide)

/-! ### Pruning callbacks (`bert_squeeze/utils/callbacks/pruning.py`) -/

/-- `charPrefixEq p s` is true when `p` is an initial segment of `s`. -/
def charPrefixEq : List Char → List Char → Bool
  | [], _ => true
  | _ :: _, [] => false
  | a :: p, b :: s => a = b && charPrefixEq p s

/-- `charContains p s` is true when `p` occurs contiguously in `s`. -/
def charContains (p : List Char) : List Char → Bool
  | [] => charPrefixEq p []
  | c :: rest => charPrefixEq p (c :: rest) || charContains p rest

/-- Python's `"weight" in name` substring test. -/
def containsWeight (name : String) : Bool :=
  charContains "weight".toList name.toList

/-- A named parameter tensor, flattened to its list of entries. -/
abbrev Param := String × List ℚ

/-- A model as its `named_parameters()` list. -/
abbrev Model := List Param

/-- A Lightning module as the pruning callbacks see it: the parameters not
under a `"student"` submodule, and the optional student submodule that
`get_submodule("student")` returns (the `AttributeError` fallback is
modelled by `none`). -/
structure PLModule where
  other : Model
  student : Option Model
  deriving Repr, DecidableEq

/-- `pl_module.parameters()` / `named_parameters()` of the whole module
enumerates the non-student parameters and the student's. -/
def PLModule.allParams (m : PLModule) : Model := m.other ++ m.student.getD []

/-- The object both `_prune_model` methods act on after the
`get_submodule("student")` / `AttributeError` dance: the student submodule
when it exists, else the whole module. -/
def PLModule.pruneTarget (m : PLModule) : Model := m.student.getD m.other

/-- One entry after `param.data[param_mask] = 0.0` with
`param_mask = torch.abs(param) < threshold` (strict comparison). -/
def pruneEntry (threshold x : ℚ) : ℚ := if |x| < threshold then 0 else x

/-- Body of `ThresholdBasedPruning._prune_model`'s loop: parameters whose
name contains `"weight"` get their sub-threshold entries zeroed, all other
parameters are untouched. -/
def thresholdPruneParam (threshold : ℚ) (p : Param) : Param :=
  if containsWeight p.1 then (p.1, p.2.map (pruneEntry threshold)) else p

/-- `ThresholdBasedPruning._prune_model` over a `named_parameters()` list. -/
def thresholdPruneModel (threshold : ℚ) (m : Model) : Model :=
  m.map (thresholdPruneParam threshold)

/-- `ThresholdBasedPruning._prune_model` on the module: only the student is
pruned when performing distillation, else the whole model. -/
def thresholdPruneModule (threshold : ℚ) (m : PLModule) : PLModule :=
  match m.student with
  | some s => { m with student := some (thresholdPruneModel threshold s) }
  | none => { m with other := thresholdPruneModel threshold m.other }

/-- A parameter with gradients: name and `(param.data, param.grad.data)`
entry pairs. -/
abbrev GParam := String × List (ℚ × ℚ)

/-- A module's `named_parameters()` with gradients attached. -/
abbrev GModel := List GParam

/-- One entry of
`torch.where(param_data == 0.0, dummy_zero_tensor, param_grad)`:
the data is untouched, the gradient is zeroed exactly where the current
weight value is exactly zero. -/
def zeroPrunedGradEntry (e : ℚ × ℚ) : ℚ × ℚ :=
  (e.1, if e.1 = 0 then 0 else e.2)

/-- `ThresholdBasedPruning._zero_pruned_gradients`: applies the gradient
masking to every parameter whose name contains `"weight"`. -/
def zeroPrunedGradients (m : GModel) : GModel :=
  m.map (fun p =>
    if containsWeight p.1 then (p.1, p.2.map zeroPrunedGradEntry) else p)

/-- `ThresholdBasedPruning.on_before_optimizer_step`: Python's chained
comparison `pl_module.current_epoch >= self.start_pruning_epoch != -1`
means `current_epoch ≥ start_pruning_epoch ∧ start_pruning_epoch ≠ -1`. -/
def onBeforeOptimizerStep (start_pruning_epoch current_epoch : ℤ)
    (m : GModel) : GModel :=
  if current_epoch ≥ start_pruning_epoch ∧ start_pruning_epoch ≠ -1 then
    zeroPrunedGradients m
  else m

/-- The threshold-pruned module's target list is the pointwise-pruned
original target list. -/
theorem pruneTarget_thresholdPruneModule (threshold : ℚ) (m : PLModule) :
    (thresholdPruneModule threshold m).pruneTarget
      = thresholdPruneModel threshold m.pruneTarget := by
  cases h : m.student <;>
    simp [thresholdPruneModule, PLModule.pruneTarget, h]

/-- C3: after one `ThresholdBasedPruning._prune_model` pass with threshold
`T`, within the pruned target (the student submodule when present, else the
whole model) every `"weight"`-named parameter has (a) every entry of
magnitude strictly below `T` equal to zero, (b) equivalently every nonzero
entry of magnitude at least `T`, and (c) parameters whose names do not
contain `"weight"` are unchanged at their positions. -/
theorem threshold_prune_magnitude_bound (T : ℚ) (m : PLModule) :
    ((thresholdPruneModule T m).pruneTarget.length = m.pruneTarget.length)
    ∧ (∀ p ∈ (thresholdPruneModule T m).pruneTarget, containsWeight p.1 →
        ∀ x ∈ p.2, |x| < T → x = 0)
    ∧ (∀ p ∈ (thresholdPruneModule T m).pruneTarget, containsWeight p.1 →
        ∀ x ∈ p.2, x ≠ 0 → T ≤ |x|)
    ∧ (∀ i p, m.pruneTarget.get? i = some p → ¬containsWeight p.1 →
        (thresholdPruneModule T m).pruneTarget.get? i = some p) := by
  rw [pruneTarget_thresholdPruneModule]
  refine ⟨by simp [thresholdPruneModel], ?_, ?_, ?_⟩
  · intro p hp hw x hx hlt
    rcases List.mem_map.mp hp with ⟨q, _, hq⟩
    by_cases hqw : containsWeight q.1
    · rw [← hq] at hw hx
      simp only [thresholdPruneParam, hqw, if_pos] at hx
      rcases List.mem_map.mp hx with ⟨y, _, hy⟩
      subst hy
      by_cases hy2 : |y| < T
      · simp [pruneEntry, hy2]
      · rw [pruneEntry, if_neg hy2] at hlt
        exact absurd hlt hy2
    · rw [← hq] at hw
      simp [thresholdPruneParam, hqw] at hw
  · intro p hp hw x hx hne
    rcases List.mem_map.mp hp with ⟨q, _, hq⟩
    by_cases hqw : containsWeight q.1
    · rw [← hq] at hw hx
      simp only [thresholdPruneParam, hqw, if_pos] at hx
      rcases List.mem_map.mp hx with ⟨y, _, hy⟩
      subst hy
      by_cases hy2 : |y| < T
      · rw [pruneEntry, if_pos hy2] at hne
        exact absurd rfl hne
      · rw [pruneEntry, if_neg hy2]
        exact le_of_not_lt hy2
    · rw [← hq] at hw
      simp [thresholdPruneParam, hqw] at hw
  · intro i p hp hw
    rw [thresholdPruneModel, List.get?_map, hp]
    simp [thresholdPruneParam, hw]

/-- C7: `on_before_optimizer_step` applies the gradient masking exactly
when `current_epoch ≥ start_pruning_epoch` and the `-1` sentinel is not
set; under the masking, a `"weight"`-named parameter keeps its data, its
gradient entries at exactly-zero weight positions become zero and all
other gradient entries keep their value, non-`"weight"` parameters are
untouched; consequently an exactly-zero weight stays zero after the
subsequent update `data - lr * grad`, whatever its incoming gradient. -/
theorem zero_pruned_gradients_spec (start_pruning_epoch current_epoch : ℤ)
    (m : GModel) :
    (¬(current_epoch ≥ start_pruning_epoch ∧ start_pruning_epoch ≠ -1) →
      onBeforeOptimizerStep start_pruning_epoch current_epoch m = m)
    ∧ ((current_epoch ≥ start_pruning_epoch ∧ start_pruning_epoch ≠ -1) →
        ∀ i p, m.get? i = some p →
          (¬containsWeight p.1 →
            (onBeforeOptimizerStep start_pruning_epoch current_epoch m).get? i
              = some p)
          ∧ (containsWeight p.1 →
            (onBeforeOptimizerStep start_pruning_epoch current_epoch m).get? i
              = some (p.1, p.2.map zeroPrunedGradEntry)))
    ∧ (∀ e : ℚ × ℚ, (zeroPrunedGradEntry e).1 = e.1)
    ∧ (∀ e : ℚ × ℚ, e.1 = 0 → (zeroPrunedGradEntry e).2 = 0
        ∧ ∀ lr : ℚ, (zeroPrunedGradEntry e).1 - lr * (zeroPrunedGradEntry e).2 = 0)
    ∧ (∀ e : ℚ × ℚ, e.1 ≠ 0 → zeroPrunedGradEntry e = e) := by
  refine ⟨?_, ?_, ?_, ?_, ?_⟩
  · intro hcond
    simp [onBeforeOptimizerStep, hcond]
  · intro hcond i p hp
    constructor
    · intro hw
      simp only [onBeforeOptimizerStep, if_pos hcond, zeroPrunedGradients,
        List.get?_map, hp]
      simp [hw]
    · intro hw
      simp only [onBeforeOptimizerStep, if_pos hcond, zeroPrunedGradients,
        List.get?_map, hp]
      simp [hw]
  · intro e
    rfl
  · intro e he
    refine ⟨by simp [zeroPrunedGradEntry, he], ?_⟩
    intro lr
    simp [zeroPrunedGradEntry, he]
  · intro e he
    simp [zeroPrunedGradEntry, he]

/-- Python `int()` truncation toward zero on a rational. -/
def pyInt (q : ℚ) : ℤ := if 0 ≤ q then ⌊q⌋ else -⌊-q⌋

/-- Absolute values of a flattened tensor, sorted ascending: the result of
`torch.topk(flat.abs(), k, largest=False, sorted=True)` is the first `k`
entries of this list. -/
def sortedAbs (l : List ℚ) : List ℚ := (l.map (fun x => |x|)).mergeSort

/-- `bottom_k.data[-1]` for the bottom-`k` selection: the `k`-th smallest
absolute value (1-indexed).  `none` models a raised exception: `k = 0`
(indexing `[-1]` into an empty result), negative `k` and `k` beyond the
tensor size (`torch.topk` raises). -/
def kthSmallestAbs (l : List ℚ) (k : ℤ) : Option ℚ :=
  if 1 ≤ k then (sortedAbs l).get? (k.toNat - 1) else none

/-- `SparsityBasedPruning._prune_model`'s loop body: unlike the threshold
callback there is no `"weight"` name filter; every parameter entry of
magnitude strictly below the threshold (`torch.lt`) is zeroed. -/
def sparsityPruneModel (threshold : ℚ) (m : Model) : Model :=
  m.map (fun p => (p.1, p.2.map (pruneEntry threshold)))

/-- `SparsityBasedPruning._prune_model` on the module: only the student is
pruned when performing distillation, else the whole model. -/
def sparsityPruneModule (threshold : ℚ) (m : PLModule) : PLModule :=
  match m.student with
  | some s => { m with student := some (sparsityPruneModel threshold s) }
  | none => { m with other := sparsityPruneModel threshold m.other }

/-- `torch.cat([param.view(-1) for param in pl_module.parameters()])`. -/
def flattenParams (m : Model) : List ℚ := (m.map Prod.snd).flatten

/-- `SparsityBasedPruning.on_fit_end`: a no-op when `sparsity_level == 0.0`;
otherwise the global threshold is the largest of the bottom-`k` absolute
values of the FULL module's flattened parameters (`pl_module.parameters()`
— the student/teacher distinction only enters later, inside
`_prune_model`), with `k = int(self.sparsity_level *
flatten_parameters.numel())`, and `_prune_model` zeroes the sub-threshold
entries of the student-if-present model.  `none` models a raised
exception. -/
def sparsityOnFitEnd (sparsity_level : ℚ) (m : PLModule) : Option PLModule :=
  if sparsity_level = 0 then some m
  else
    match kthSmallestAbs (flattenParams m.allParams)
        (pyInt (sparsity_level * (flattenParams m.allParams).length)) with
    | none => none
    | some threshold => some (sparsityPruneModule threshold m)

/-- Pruning an entry twice with the same threshold is the same as pruning
it once. -/
theorem pruneEntry_idem (T x : ℚ) :
    pruneEntry T (pruneEntry T x) = pruneEntry T x := by
  unfold pruneEntry
  by_cases h : |x| < T
  · have hT : (0 : ℚ) < T := lt_of_le_of_lt (abs_nonneg x) h
    simp [h, abs_of_nonneg, hT]
  · simp [h]

/-- Pruning does not change which side of the (strict) threshold an
entry's magnitude falls on. -/
theorem abs_pruneEntry_lt_iff (T x : ℚ) :
    (|pruneEntry T x| < T) ↔ |x| < T := by
  unfold pruneEntry
  by_cases h : |x| < T
  · have hT : (0 : ℚ) < T := lt_of_le_of_lt (abs_nonneg x) h
    simp [h, hT]
  · simp [h]

/-- Pruning does not change which side of the weak threshold an entry's
magnitude falls on. -/
theorem abs_pruneEntry_le_iff (T x : ℚ) :
    (|pruneEntry T x| ≤ T) ↔ |x| ≤ T := by
  unfold pruneEntry
  by_cases h : |x| < T
  · have hT : (0 : ℚ) < T := lt_of_le_of_lt (abs_nonneg x) h
    simp [h, le_of_lt h, le_of_lt hT]
  · simp [h]

/-- A nonzero entry is pruned to zero exactly when its magnitude is
strictly below the threshold. -/
theorem pruneEntry_eq_zero_iff (T x : ℚ) (hx : x ≠ 0) :
    pruneEntry T x = 0 ↔ |x| < T := by
  unfold pruneEntry
  by_cases h : |x| < T
  · simp [h]
  · simp [h, hx]

/-- In a sorted list, the number of entries strictly below the entry at
index `j` is at most `j`. -/
theorem sorted_countP_lt_le :
    ∀ (l : List ℚ), l.Sorted (· ≤ ·) → ∀ j (hj : j < l.length),
      l.countP (fun a => a < l.get ⟨j, hj⟩) ≤ j := by
  intro l
  induction l with
  | nil => intro _ j hj; exact absurd hj (by simp)
  | cons a rest ih =>
    intro hs j hj
    rcases List.sorted_cons.mp hs with ⟨hhead, htail⟩
    match j with
    | 0 =>
      simp only [List.get]
      rw [List.countP_cons]
      have h1 : rest.countP (fun b => decide (b < a)) = 0 := by
        rw [List.countP_eq_zero]
        intro b hb
        simpa using not_lt.mpr (hhead b hb)
      simp [h1]
    | j + 1 =>
      simp only [List.get_cons_succ]
      rw [List.countP_cons]
      have := ih htail j (by simpa using Nat.lt_of_succ_lt_succ hj)
      by_cases ha : a < rest.get ⟨j, by simpa using Nat.lt_of_succ_lt_succ hj⟩
      · simp only [if_pos (decide_eq_true ha)]
        omega
      · simp only [if_neg (fun hb => ha (of_decide_eq_true hb))]
        omega

/-- In a sorted duplicate-free list, the number of entries strictly below
the entry at index `j` is exactly `j`. -/
theorem sorted_nodup_countP_lt_eq :
    ∀ (l : List ℚ), l.Sorted (· ≤ ·) → l.Nodup → ∀ j (hj : j < l.length),
      l.countP (fun a => a < l.get ⟨j, hj⟩) = j := by
  intro l
  induction l with
  | nil => intro _ _ j hj; exact absurd hj (by simp)
  | cons a rest ih =>
    intro hs hnd j hj
    rcases List.sorted_cons.mp hs with ⟨hhead, htail⟩
    rcases List.nodup_cons.mp hnd with ⟨hmem, hndtail⟩
    match j with
    | 0 =>
      simp only [List.get]
      rw [List.countP_cons]
      have h1 : rest.countP (fun b => decide (b < a)) = 0 := by
        rw [List.countP_eq_zero]
        intro b hb
        simpa using not_lt.mpr (hhead b hb)
      simp [h1]
    | j + 1 =>
      have hj' : j < rest.length := by simpa using Nat.lt_of_succ_lt_succ hj
      simp only [List.get_cons_succ]
      rw [List.countP_cons]
      have hmemget : rest.get ⟨j, hj'⟩ ∈ rest := List.get_mem rest _ _
      have hle : a ≤ rest.get ⟨j, hj'⟩ := hhead _ hmemget
      have hne : a ≠ rest.get ⟨j, hj'⟩ := by
        intro he
        exact hmem (he ▸ hmemget)
      have ha : a < rest.get ⟨j, hj'⟩ := lt_of_le_of_ne hle hne
      have := ih htail hndtail j hj'
      simp only [if_pos (decide_eq_true ha)]
      omega

/-- In a sorted list, strictly more than `j` entries are at most the entry
at index `j`. -/
theorem sorted_lt_countP_le :
    ∀ (l : List ℚ), l.Sorted (· ≤ ·) → ∀ j (hj : j < l.length),
      j < l.countP (fun a => a ≤ l.get ⟨j, hj⟩) := by
  intro l
  induction l with
  | nil => intro _ j hj; exact absurd hj (by simp)
  | cons a rest ih =>
    intro hs j hj
    rcases List.sorted_cons.mp hs with ⟨hhead, htail⟩
    match j with
    | 0 =>
      simp only [List.get]
      rw [List.countP_cons]
      simp
    | j + 1 =>
      have hj' : j < rest.length := by simpa using Nat.lt_of_succ_lt_succ hj
      simp only [List.get_cons_succ]
      rw [List.countP_cons]
      have hle : a ≤ rest.get ⟨j, hj'⟩ := hhead _ (List.get_mem rest _ _)
      have := ih htail j hj'
      simp only [if_pos (decide_eq_true hle)]
      omega

/-- In a sorted list, if at most `j` entries are strictly below `t`, then
the entry at index `j` is at least `t`. -/
theorem sorted_le_get_of_countP_lt_le :
    ∀ (l : List ℚ), l.Sorted (· ≤ ·) → ∀ (t : ℚ) j (hj : j < l.length),
      l.countP (fun a => a < t) ≤ j → t ≤ l.get ⟨j, hj⟩ := by
  intro l
  induction l with
  | nil => intro _ t j hj; exact absurd hj (by simp)
  | cons a rest ih =>
    intro hs t j hj hcount
    rcases List.sorted_cons.mp hs with ⟨hhead, htail⟩
    rw [List.countP_cons] at hcount
    match j with
    | 0 =>
      simp only [List.get]
      by_contra hat
      push_neg at hat
      simp [hat] at hcount
    | j + 1 =>
      have hj' : j < rest.length := by simpa using Nat.lt_of_succ_lt_succ hj
      simp only [List.get_cons_succ]
      by_cases ha : a < t
      · simp only [if_pos (decide_eq_true ha)] at hcount
        exact ih htail t j hj' (by omega)
      · exact le_trans (not_lt.mp ha) (hhead _ (List.get_mem rest _ _))

/-- In a sorted list, if strictly more than `j` entries are at most `t`,
then the entry at index `j` is at most `t`. -/
theorem sorted_get_le_of_lt_countP_le :
    ∀ (l : List ℚ), l.Sorted (· ≤ ·) → ∀ (t : ℚ) j (hj : j < l.length),
      j < l.countP (fun a => a ≤ t) → l.get ⟨j, hj⟩ ≤ t := by
  intro l
  induction l with
  | nil => intro _ t j hj; exact absurd hj (by simp)
  | cons a rest ih =>
    intro hs t j hj hcount
    rcases List.sorted_cons.mp hs with ⟨hhead, htail⟩
    rw [List.countP_cons] at hcount
    by_cases ha : a ≤ t
    · match j with
      | 0 => exact ha
      | j + 1 =>
        have hj' : j < rest.length := by simpa using Nat.lt_of_succ_lt_succ hj
        simp only [List.get_cons_succ]
        simp only [if_pos (decide_eq_true ha)] at hcount
        exact ih htail t j hj' (by omega)
    · exfalso
      have h1 : rest.countP (fun b => decide (b ≤ t)) = 0 := by
        rw [List.countP_eq_zero]
        intro b hb
        have : ¬ b ≤ t := fun hbt => ha (le_trans (hhead b hb) hbt)
        simpa using this
      simp [ha, h1] at hcount

/-- The entry of a sorted list at index `j` is determined by the counts of
entries strictly below and at most `t`. -/
theorem sorted_get_eq_of_counts (l : List ℚ) (hs : l.Sorted (· ≤ ·))
    (t : ℚ) (j : ℕ) (hj : j < l.length)
    (hlt : l.countP (fun a => a < t) ≤ j)
    (hle : j < l.countP (fun a => a ≤ t)) : l.get ⟨j, hj⟩ = t :=
  le_antisymm (sorted_get_le_of_lt_countP_le l hs t j hj hle)
    (sorted_le_get_of_countP_lt_le l hs t j hj hlt)

/-- Flattening distributes over concatenated parameter lists. -/
theorem flattenParams_append (a b : Model) :
    flattenParams (a ++ b) = flattenParams a ++ flattenParams b := by
  simp [flattenParams]

/-- Flattening the sparsity-pruned model is entrywise pruning of the
flattened model. -/
theorem flattenParams_sparsityPruneModel (T : ℚ) (M : Model) :
    flattenParams (sparsityPruneModel T M)
      = (flattenParams M).map (pruneEntry T) := by
  simp only [flattenParams, sparsityPruneModel, List.map_map,
    List.map_flatten]
  rfl

/-- Sorting preserves length. -/
theorem length_sortedAbs (l : List ℚ) :
    (sortedAbs l).length = l.length := by
  rw [sortedAbs, (List.mergeSort_perm _ _).length_eq, List.length_map]

/-- Sorting preserves `countP`. -/
theorem countP_sortedAbs (l : List ℚ) (p : ℚ → Bool) :
    (sortedAbs l).countP p = (l.map (fun x => |x|)).countP p :=
  (List.mergeSort_perm _ _).countP_eq p

/-- C10: for `0 < sparsity_level < 1/n` (so that
`int(sparsity_level * n) = 0`), `SparsityBasedPruning.on_fit_end` is not a
no-op: the bottom-`k` selection is empty and reading `bottom_k.data[-1]`
is an out-of-bounds access, so the call raises instead of pruning
nothing. -/
theorem sparsity_small_level_raises (s : ℚ) (m : PLModule) (hs : 0 < s)
    (hsmall : s * ((flattenParams m.allParams).length : ℚ) < 1) :
    sparsityOnFitEnd s m = none := by
  have hs0 : s ≠ 0 := ne_of_gt hs
  rw [sparsityOnFitEnd, if_neg hs0]
  have hnn : 0 ≤ s * ((flattenParams m.allParams).length : ℚ) :=
    mul_nonneg (le_of_lt hs) (by positivity)
  have hfloor : ⌊s * ((flattenParams m.allParams).length : ℚ)⌋ = 0 :=
    Int.floor_eq_zero_iff.mpr ⟨hnn, hsmall⟩
  have hk : pyInt (s * ((flattenParams m.allParams).length : ℚ)) = 0 := by
    rw [pyInt, if_pos hnn, hfloor]
  rw [hk, kthSmallestAbs]
  norm_num

/-- Witness for C10 at `sparsity_level = 1/10` on a module with three
parameter entries (`1/10 * 3 < 1`). -/
theorem sparsity_small_level_raises_witness :
    sparsityOnFitEnd (1/10) ⟨[("encoder.weight", [1, 2, 3])], none⟩ = none :=
  sparsity_small_level_raises (1/10) ⟨[("encoder.weight", [1, 2, 3])], none⟩
    (by norm_num) (by norm_num [flattenParams, PLModule.allParams])

/-- Counterexample to C4 as stated: on the module with the single parameter
`[1, 2, 3, 4]` (four pairwise-distinct nonzero magnitudes) and
`sparsity_level = 1/2`, we have `k = int(1/2 * 4) = 2`, the bottom-2
selection is `[1, 2]`, the threshold is `2`, and the strict comparison
`torch.lt` zeroes only the entry `1`: exactly `1 = k - 1` entry is zero
afterwards, not `k = 2` as the claim states. -/
theorem sparsity_zero_count_counterexample :
    pyInt ((1/2 : ℚ) *
        ((flattenParams (PLModule.mk [("p", [1, 2, 3, 4])] none).allParams).length : ℚ)) = 2
    ∧ sparsityOnFitEnd (1/2) (PLModule.mk [("p", [1, 2, 3, 4])] none)
        = some (PLModule.mk [("p", [0, 2, 3, 4])] none)
    ∧ (flattenParams (PLModule.mk [("p", [0, 2, 3, 4])] none).allParams).countP
        (fun x => x = 0) = 1
    ∧ (1 : ℕ) ≠ 2 := by
  have hflat : flattenParams (PLModule.mk [("p", [1, 2, 3, 4])] none).allParams
      = [1, 2, 3, 4] := by decide
  have hlen : ((flattenParams (PLModule.mk [("p", [1, 2, 3, 4])] none).allParams).length : ℚ)
      = 4 := by rw [hflat]; norm_num
  have hk : pyInt ((1/2 : ℚ) *
      ((flattenParams (PLModule.mk [("p", [1, 2, 3, 4])] none).allParams).length : ℚ)) = 2 := by
    rw [hlen, pyInt, if_pos (by norm_num)]
    norm_num
  have hsort : sortedAbs [1, 2, 3, 4] = [1, 2, 3, 4] := by
    rw [sortedAbs,
      show (([1, 2, 3, 4] : List ℚ).map (fun x => |x|)) = [1, 2, 3, 4] from by decide]
    exact List.mergeSort_eq_self (by decide)
  have hkth : kthSmallestAbs [1, 2, 3, 4] 2 = some 2 := by
    rw [kthSmallestAbs, if_pos (by norm_num), hsort]
    decide
  refine ⟨hk, ?_, by decide, by decide⟩
  rw [sparsityOnFitEnd, if_neg (by norm_num), hk, hflat, hkth]
  decide

/-- C4 (amended): with `k = int(sparsity_level * n)` satisfying
`1 ≤ k ≤ n`, on a model (no student submodule) whose `n` parameter entries
have pairwise-distinct nonzero magnitudes, `SparsityBasedPruning.on_fit_end`
leaves exactly `k - 1` entries equal to zero: the threshold is the `k`-th
smallest magnitude and the strict `torch.lt` comparison spares the
threshold entry itself. -/
theorem sparsity_prune_zero_count (s : ℚ) (m : PLModule) (k : ℤ)
    (hstud : m.student = none)
    (hdistinct : ((flattenParams m.allParams).map (fun x => |x|)).Nodup)
    (hnz : ∀ x ∈ flattenParams m.allParams, x ≠ 0)
    (hk : k = pyInt (s * ((flattenParams m.allParams).length : ℚ)))
    (hk1 : 1 ≤ k) (hkn : k.toNat ≤ (flattenParams m.allParams).length) :
    (sparsityOnFitEnd s m).map
        (fun m' => (flattenParams m'.allParams).countP (fun x => x = 0))
      = some (k.toNat - 1) := by
  have hs0 : s ≠ 0 := by
    intro h
    subst h
    simp [pyInt] at hk
    omega
  rw [sparsityOnFitEnd, if_neg hs0, ← hk]
  have hidx : k.toNat - 1 < (sortedAbs (flattenParams m.allParams)).length := by
    rw [length_sortedAbs]
    omega
  set T : ℚ := (sortedAbs (flattenParams m.allParams)).get ⟨k.toNat - 1, hidx⟩
    with hT
  have hkth : kthSmallestAbs (flattenParams m.allParams) k = some T := by
    rw [kthSmallestAbs, if_pos hk1, List.get?_eq_get hidx]
  rw [hkth]
  simp only [Option.map_some']
  congr 1
  have hmodule : sparsityPruneModule T m
      = PLModule.mk (sparsityPruneModel T m.other) none := by
    rw [sparsityPruneModule, hstud]
  have hflat : flattenParams m.allParams = flattenParams m.other := by
    rw [PLModule.allParams, hstud]
    simp
  rw [hmodule]
  have hflat' : flattenParams (PLModule.mk (sparsityPruneModel T m.other)
      none).allParams = (flattenParams m.allParams).map (pruneEntry T) := by
    show flattenParams (sparsityPruneModel T m.other ++ Option.getD none [])
      = _
    rw [Option.getD, List.append_nil, flattenParams_sparsityPruneModel,
      ← hflat]
  rw [hflat']
  rw [List.countP_map]
  have hstep1 : (flattenParams m.allParams).countP
      (fun x => decide (pruneEntry T x = 0))
      = (flattenParams m.allParams).countP (fun x => decide (|x| < T)) := by
    apply List.countP_congr
    intro x hx
    simp only [decide_eq_true_eq]
    exact pruneEntry_eq_zero_iff T x (hnz x hx)
  have hstep2 : (flattenParams m.allParams).countP (fun x => decide (|x| < T))
      = ((flattenParams m.allParams).map (fun x => |x|)).countP
          (fun a => decide (a < T)) := by
    rw [List.countP_map]
    rfl
  have hstep3 : ((flattenParams m.allParams).map (fun x => |x|)).countP
      (fun a => decide (a < T))
      = (sortedAbs (flattenParams m.allParams)).countP
          (fun a => decide (a < T)) :=
    (countP_sortedAbs (flattenParams m.allParams) _).symm
  have hsorted : (sortedAbs (flattenParams m.allParams)).Sorted (· ≤ ·) :=
    List.sorted_mergeSort' _
  have hnd : (sortedAbs (flattenParams m.allParams)).Nodup :=
    ((List.mergeSort_perm _ _).nodup_iff).mpr hdistinct
  have hfinal := sorted_nodup_countP_lt_eq
    (sortedAbs (flattenParams m.allParams)) hsorted hnd (k.toNat - 1) hidx
  calc (flattenParams m.allParams).countP (fun x => decide (pruneEntry T x = 0))
      = (sortedAbs (flattenParams m.allParams)).countP
          (fun a => decide (a < T)) := by rw [hstep1, hstep2, hstep3]
    _ = k.toNat - 1 := hfinal

/-- Witness for the amended C4 on the counterexample module: `k = 2` and
exactly one entry is zeroed. -/
theorem sparsity_prune_zero_count_witness :
    (sparsityOnFitEnd (1/2) (PLModule.mk [("p", [1, 2, 3, 4])] none)).map
        (fun m' => (flattenParams m'.allParams).countP (fun x => x = 0))
      = some ((2 : ℤ).toNat - 1) :=
  sparsity_prune_zero_count (1/2) (PLModule.mk [("p", [1, 2, 3, 4])] none) 2
    rfl (by decide) (by decide)
    (by
      have hflat : flattenParams (PLModule.mk [("p", [1, 2, 3, 4])] none).allParams
          = [1, 2, 3, 4] := by decide
      rw [hflat, pyInt]
      rw [if_pos (by norm_num)]
      norm_num)
    (by norm_num) (by decide)

/-- Variant following the SPEC's words rather than the code, for
comparison: the spec says the threshold is computed by "flatten[ing] all
parameter tensors of the (student, if present) model into one 1-D view",
i.e. from the student submodule only.  The code (`sparsityOnFitEnd`)
instead flattens `pl_module.parameters()` — the full module. -/
def sparsityOnFitEndStudentThreshold (sparsity_level : ℚ) (m : PLModule) :
    Option PLModule :=
  if sparsity_level = 0 then some m
  else
    match kthSmallestAbs (flattenParams m.pruneTarget)
        (pyInt (sparsity_level * ((flattenParams m.pruneTarget).length : ℚ))) with
    | none => none
    | some threshold => some (sparsityPruneModule threshold m)

/-- Evaluation of `on_fit_end` at `sparsity_level = 1/2` on a module with
teacher entries `[2, 10]` and student entries `[1, 3]`: the global
threshold is `2` and the student becomes `[0, 3]`. -/
theorem sparsity_eval_mixed :
    sparsityOnFitEnd (1/2) (PLModule.mk [("t", [2, 10])] (some [("s", [1, 3])]))
      = some (PLModule.mk [("t", [2, 10])] (some [("s", [0, 3])])) := by
  have hflat : flattenParams
      (PLModule.mk [("t", [2, 10])] (some [("s", [1, 3])])).allParams
      = [2, 10, 1, 3] := by decide
  have hsort : sortedAbs [2, 10, 1, 3] = [1, 2, 3, 10] := by
    rw [sortedAbs,
      show (([2, 10, 1, 3] : List ℚ).map (fun x => |x|)) = [2, 10, 1, 3]
        from by decide]
    exact List.eq_of_perm_of_sorted
      ((List.mergeSort_perm _ _).trans (by decide))
      (List.sorted_mergeSort' _) (by decide)
  have hlen : ((flattenParams
      (PLModule.mk [("t", [2, 10])] (some [("s", [1, 3])])).allParams).length : ℚ)
      = 4 := by rw [hflat]; norm_num
  have hk : pyInt ((1/2 : ℚ) * ((flattenParams
      (PLModule.mk [("t", [2, 10])] (some [("s", [1, 3])])).allParams).length : ℚ))
      = 2 := by
    rw [hlen, pyInt, if_pos (by norm_num)]
    norm_num
  have hkth : kthSmallestAbs [2, 10, 1, 3] 2 = some 2 := by
    rw [kthSmallestAbs, if_pos (by norm_num), hsort]
    decide
  rw [sparsityOnFitEnd, if_neg (by norm_num), hk, hflat, hkth]
  decide

/-- Evaluation of `on_fit_end` at `sparsity_level = 1/2` on a module with
teacher entries `[0, 0]` and the same student `[1, 3]`: the global
threshold is now `0` and nothing is pruned. -/
theorem sparsity_eval_zero_teacher :
    sparsityOnFitEnd (1/2) (PLModule.mk [("t", [0, 0])] (some [("s", [1, 3])]))
      = some (PLModule.mk [("t", [0, 0])] (some [("s", [1, 3])])) := by
  have hflat : flattenParams
      (PLModule.mk [("t", [0, 0])] (some [("s", [1, 3])])).allParams
      = [0, 0, 1, 3] := by decide
  have hsort : sortedAbs [0, 0, 1, 3] = [0, 0, 1, 3] := by
    rw [sortedAbs,
      show (([0, 0, 1, 3] : List ℚ).map (fun x => |x|)) = [0, 0, 1, 3]
        from by decide]
    exact List.mergeSort_eq_self (by decide)
  have hlen : ((flattenParams
      (PLModule.mk [("t", [0, 0])] (some [("s", [1, 3])])).allParams).length : ℚ)
      = 4 := by rw [hflat]; norm_num
  have hk : pyInt ((1/2 : ℚ) * ((flattenParams
      (PLModule.mk [("t", [0, 0])] (some [("s", [1, 3])])).allParams).length : ℚ))
      = 2 := by
    rw [hlen, pyInt, if_pos (by norm_num)]
    norm_num
  have hkth : kthSmallestAbs [0, 0, 1, 3] 2 = some 0 := by
    rw [kthSmallestAbs, if_pos (by norm_num), hsort]
    decide
  rw [sparsityOnFitEnd, if_neg (by norm_num), hk, hflat, hkth]
  decide

/-- Evaluation of the spec-worded variant at `sparsity_level = 1/2` on the
teacher `[2, 10]` / student `[1, 3]` module: the student-only threshold is
`1` and nothing is pruned. -/
theorem sparsity_eval_student_threshold :
    sparsityOnFitEndStudentThreshold (1/2)
        (PLModule.mk [("t", [2, 10])] (some [("s", [1, 3])]))
      = some (PLModule.mk [("t", [2, 10])] (some [("s", [1, 3])])) := by
  have hflat : flattenParams
      (PLModule.mk [("t", [2, 10])] (some [("s", [1, 3])])).pruneTarget
      = [1, 3] := by decide
  have hsort : sortedAbs [1, 3] = [1, 3] := by
    rw [sortedAbs,
      show (([1, 3] : List ℚ).map (fun x => |x|)) = [1, 3] from by decide]
    exact List.mergeSort_eq_self (by decide)
  have hlen : ((flattenParams
      (PLModule.mk [("t", [2, 10])] (some [("s", [1, 3])])).pruneTarget).length : ℚ)
      = 2 := by rw [hflat]; norm_num
  have hk : pyInt ((1/2 : ℚ) * ((flattenParams
      (PLModule.mk [("t", [2, 10])] (some [("s", [1, 3])])).pruneTarget).length : ℚ))
      = 1 := by
    rw [hlen, pyInt, if_pos (by norm_num)]
    norm_num
  have hkth : kthSmallestAbs [1, 3] 1 = some 1 := by
    rw [kthSmallestAbs, if_pos (by norm_num), hsort]
    decide
  rw [sparsityOnFitEndStudentThreshold, if_neg (by norm_num), hk, hflat, hkth]
  decide

/-- Counterexample to C5 as stated: two modules with the identical student
`[1, 3]` but different teacher parameters (`[2, 10]` vs `[0, 0]`) are
pruned differently at `sparsity_level = 1/2` — the first run zeroes the
student entry `1`, the second leaves the student untouched — so teacher
parameters do influence the threshold; and the code's result on the first
module differs from the spec-worded student-only-threshold variant. -/
theorem sparsity_teacher_affects_threshold_counterexample :
    sparsityOnFitEnd (1/2) (PLModule.mk [("t", [2, 10])] (some [("s", [1, 3])]))
      = some (PLModule.mk [("t", [2, 10])] (some [("s", [0, 3])]))
    ∧ sparsityOnFitEnd (1/2) (PLModule.mk [("t", [0, 0])] (some [("s", [1, 3])]))
      = some (PLModule.mk [("t", [0, 0])] (some [("s", [1, 3])]))
    ∧ some (PLModule.mk [("t", [2, 10])] (some [("s", [0, 3])]))
        ≠ some (PLModule.mk [("t", [2, 10])] (some [("s", [1, 3])]))
    ∧ sparsityOnFitEndStudentThreshold (1/2)
        (PLModule.mk [("t", [2, 10])] (some [("s", [1, 3])]))
      ≠ sparsityOnFitEnd (1/2)
        (PLModule.mk [("t", [2, 10])] (some [("s", [1, 3])])) := by
  refine ⟨sparsity_eval_mixed, sparsity_eval_zero_teacher, by decide, ?_⟩
  rw [sparsity_eval_mixed, sparsity_eval_student_threshold]
  decide

/-- C5 (amended): when a `"student"` submodule exists,
`SparsityBasedPruning.on_fit_end` computes its global threshold from the
flattened parameters of the FULL module (teacher parameters included), and
then zeroes entries of the student model only: the parameters outside the
student are unchanged. -/
theorem sparsity_student_prune_frame (s : ℚ) (m : PLModule) (s0 : Model)
    (m' : PLModule) (hstud : m.student = some s0)
    (hrun : sparsityOnFitEnd s m = some m') :
    m'.other = m.other
    ∧ (s = 0 → m' = m)
    ∧ (s ≠ 0 → m'.student
        = (kthSmallestAbs (flattenParams m.allParams)
            (pyInt (s * ((flattenParams m.allParams).length : ℚ)))).map
          (fun T => sparsityPruneModel T s0)) := by
  by_cases hs : s = 0
  · rw [sparsityOnFitEnd, if_pos hs] at hrun
    have h := Option.some.inj hrun
    subst h
    exact ⟨rfl, fun _ => rfl, fun hne => absurd hs hne⟩
  · rw [sparsityOnFitEnd, if_neg hs] at hrun
    cases hkth : kthSmallestAbs (flattenParams m.allParams)
        (pyInt (s * ((flattenParams m.allParams).length : ℚ))) with
    | none =>
      rw [hkth] at hrun
      exact Option.noConfusion hrun
    | some T =>
      rw [hkth] at hrun
      have hm' : sparsityPruneModule T m = m' := Option.some.inj hrun
      subst hm'
      have hmod : sparsityPruneModule T m
          = PLModule.mk m.other (some (sparsityPruneModel T s0)) := by
        rw [sparsityPruneModule, hstud]
      rw [hmod]
      exact ⟨rfl, fun h0 => absurd h0 hs, fun _ => rfl⟩

/-- Witness for the amended C5 on the teacher `[2, 10]` / student `[1, 3]`
module at `sparsity_level = 1/2`. -/
theorem sparsity_student_prune_frame_witness :
    (PLModule.mk [("t", [2, 10])] (some [("s", [0, 3])])).other
      = (PLModule.mk [("t", [2, 10])] (some [("s", [1, 3])])).other
    ∧ ((1/2 : ℚ) = 0 →
        PLModule.mk [("t", [2, 10])] (some [("s", [0, 3])])
          = PLModule.mk [("t", [2, 10])] (some [("s", [1, 3])]))
    ∧ ((1/2 : ℚ) ≠ 0 →
        (PLModule.mk [("t", [2, 10])] (some [("s", [0, 3])])).student
          = (kthSmallestAbs (flattenParams
              (PLModule.mk [("t", [2, 10])] (some [("s", [1, 3])])).allParams)
              (pyInt ((1/2 : ℚ) * ((flattenParams
                (PLModule.mk [("t", [2, 10])] (some [("s", [1, 3])])).allParams).length : ℚ)))).map
            (fun T => sparsityPruneModel T [("s", [1, 3])])) :=
  sparsity_student_prune_frame (1/2)
    (PLModule.mk [("t", [2, 10])] (some [("s", [1, 3])]))
    [("s", [1, 3])]
    (PLModule.mk [("t", [2, 10])] (some [("s", [0, 3])]))
    rfl sparsity_eval_mixed

/-- Pruning a parameter list twice with the same threshold equals pruning
it once (sparsity variant, no name filter). -/
theorem sparsityPruneModel_idem (T : ℚ) (M : Model) :
    sparsityPruneModel T (sparsityPruneModel T M) = sparsityPruneModel T M := by
  unfold sparsityPruneModel
  rw [List.map_map]
  apply List.map_congr_left
  intro p _
  simp only [Function.comp]
  rw [List.map_map]
  exact congrArg (Prod.mk p.1)
    (List.map_congr_left (fun x _ => pruneEntry_idem T x))

/-- Pruning a parameter twice with the same threshold equals pruning it
once (threshold variant, with the `"weight"` name filter). -/
theorem thresholdPruneParam_idem (T : ℚ) (p : Param) :
    thresholdPruneParam T (thresholdPruneParam T p) = thresholdPruneParam T p := by
  unfold thresholdPruneParam
  by_cases hw : containsWeight p.1
  · simp only [hw, if_pos]
    rw [List.map_map]
    rw [show List.map (pruneEntry T ∘ pruneEntry T) p.2
        = List.map (pruneEntry T) p.2 from
      List.map_congr_left (fun x _ => pruneEntry_idem T x)]
  · simp [hw]

/-- `ThresholdBasedPruning._prune_model` is idempotent on a parameter
list. -/
theorem thresholdPruneModel_idem (T : ℚ) (M : Model) :
    thresholdPruneModel T (thresholdPruneModel T M) = thresholdPruneModel T M := by
  unfold thresholdPruneModel
  rw [List.map_map]
  apply List.map_congr_left
  intro p _
  exact thresholdPruneParam_idem T p

/-- `ThresholdBasedPruning._prune_model` is idempotent on the module. -/
theorem thresholdPruneModule_idem (T : ℚ) (m : PLModule) :
    thresholdPruneModule T (thresholdPruneModule T m) = thresholdPruneModule T m := by
  cases hstud : m.student with
  | none =>
    simp [thresholdPruneModule, hstud, thresholdPruneModel_idem]
  | some s0 =>
    simp [thresholdPruneModule, hstud, thresholdPruneModel_idem]

/-- `SparsityBasedPruning._prune_model` is idempotent on the module. -/
theorem sparsityPruneModule_idem (T : ℚ) (m : PLModule) :
    sparsityPruneModule T (sparsityPruneModule T m) = sparsityPruneModule T m := by
  cases hstud : m.student with
  | none =>
    simp [sparsityPruneModule, hstud, sparsityPruneModel_idem]
  | some s0 =>
    simp [sparsityPruneModule, hstud, sparsityPruneModel_idem]

/-- The flattened parameters of the module and of its sparsity-pruned
version split as `u ++ v` and `u ++ v.map (pruneEntry T)`: `u` is the part
the pruning does not touch (empty when there is no student submodule) and
`v` the pruned part. -/
theorem sparsity_prune_flat_split (T : ℚ) (m : PLModule) :
    ∃ u v, flattenParams m.allParams = u ++ v
      ∧ flattenParams (sparsityPruneModule T m).allParams
          = u ++ v.map (pruneEntry T) := by
  cases hstud : m.student with
  | none =>
    refine ⟨[], flattenParams m.other, ?_, ?_⟩
    · simp [PLModule.allParams, hstud]
    · simp only [sparsityPruneModule, hstud]
      simp [PLModule.allParams, flattenParams_sparsityPruneModel]
  | some s0 =>
    refine ⟨flattenParams m.other, flattenParams s0, ?_, ?_⟩
    · simp [PLModule.allParams, hstud, flattenParams_append]
    · simp only [sparsityPruneModule, hstud]
      simp [PLModule.allParams, flattenParams_append,
        flattenParams_sparsityPruneModel]

/-- Entrywise pruning with threshold `T` preserves the number of
magnitudes strictly below `T`. -/
theorem countP_abs_lt_map_pruneEntry (T : ℚ) (v : List ℚ) :
    ((v.map (pruneEntry T)).map (fun x => |x|)).countP (fun a => decide (a < T))
      = (v.map (fun x => |x|)).countP (fun a => decide (a < T)) := by
  rw [List.countP_map, List.countP_map, List.countP_map]
  apply List.countP_congr
  intro x _
  simp only [Function.comp, decide_eq_true_eq]
  exact abs_pruneEntry_lt_iff T x

/-- Entrywise pruning with threshold `T` preserves the number of
magnitudes at most `T`. -/
theorem countP_abs_le_map_pruneEntry (T : ℚ) (v : List ℚ) :
    ((v.map (pruneEntry T)).map (fun x => |x|)).countP (fun a => decide (a ≤ T))
      = (v.map (fun x => |x|)).countP (fun a => decide (a ≤ T)) := by
  rw [List.countP_map, List.countP_map, List.countP_map]
  apply List.countP_congr
  intro x _
  simp only [Function.comp, decide_eq_true_eq]
  exact abs_pruneEntry_le_iff T x

/-- Pruning the sub-threshold entries of `v` does not change the `k`-th
smallest absolute value of `u ++ v` when that value is the pruning
threshold `T` itself. -/
theorem kthSmallestAbs_after_prune (u v : List ℚ) (k : ℤ) (T : ℚ)
    (hkth : kthSmallestAbs (u ++ v) k = some T) :
    kthSmallestAbs (u ++ v.map (pruneEntry T)) k = some T := by
  rw [kthSmallestAbs] at hkth ⊢
  by_cases hk1 : 1 ≤ k
  · rw [if_pos hk1] at hkth ⊢
    obtain ⟨hj, hT⟩ := List.get?_eq_some.mp hkth
    have hlen : (sortedAbs (u ++ v.map (pruneEntry T))).length
        = (sortedAbs (u ++ v)).length := by
      rw [length_sortedAbs, length_sortedAbs]
      simp
    have hj' : k.toNat - 1 < (sortedAbs (u ++ v.map (pruneEntry T))).length := by
      rw [hlen]; exact hj
    have hsorted : (sortedAbs (u ++ v)).Sorted (· ≤ ·) :=
      List.sorted_mergeSort' _
    have hsorted' : (sortedAbs (u ++ v.map (pruneEntry T))).Sorted (· ≤ ·) :=
      List.sorted_mergeSort' _
    have hclt : (sortedAbs (u ++ v.map (pruneEntry T))).countP
        (fun a => decide (a < T))
        = (sortedAbs (u ++ v)).countP (fun a => decide (a < T)) := by
      rw [countP_sortedAbs, countP_sortedAbs, List.map_append,
        List.map_append, List.countP_append, List.countP_append,
        countP_abs_lt_map_pruneEntry]
    have hcle : (sortedAbs (u ++ v.map (pruneEntry T))).countP
        (fun a => decide (a ≤ T))
        = (sortedAbs (u ++ v)).countP (fun a => decide (a ≤ T)) := by
      rw [countP_sortedAbs, countP_sortedAbs, List.map_append,
        List.map_append, List.countP_append, List.countP_append,
        countP_abs_le_map_pruneEntry]
    have hlt_bound : (sortedAbs (u ++ v)).countP (fun a => decide (a < T))
        ≤ k.toNat - 1 := by
      have := sorted_countP_lt_le (sortedAbs (u ++ v)) hsorted (k.toNat - 1) hj
      rw [hT] at this
      exact this
    have hle_bound : k.toNat - 1
        < (sortedAbs (u ++ v)).countP (fun a => decide (a ≤ T)) := by
      have := sorted_lt_countP_le (sortedAbs (u ++ v)) hsorted (k.toNat - 1) hj
      rw [hT] at this
      exact this
    have hget : (sortedAbs (u ++ v.map (pruneEntry T))).get ⟨k.toNat - 1, hj'⟩
        = T :=
      sorted_get_eq_of_counts _ hsorted' T (k.toNat - 1) hj'
        (by rw [hclt]; exact hlt_bound) (by rw [hcle]; exact hle_bound)
    exact List.get?_eq_some.mpr ⟨hj', hget⟩
  · rw [if_neg hk1] at hkth
    exact Option.noConfusion hkth

/-- C9: both magnitude-pruning passes are idempotent.  Re-running
`ThresholdBasedPruning._prune_model` with the same threshold changes
nothing, and re-running `SparsityBasedPruning.on_fit_end` with the same
`sparsity_level` (and no intervening training) returns the model unchanged:
the re-computed global threshold coincides with the first one and only
already-zero entries fall below it. -/
theorem magnitude_pruning_idempotent :
    (∀ (T : ℚ) (m : PLModule),
      thresholdPruneModule T (thresholdPruneModule T m)
        = thresholdPruneModule T m)
    ∧ (∀ (s : ℚ) (m m' : PLModule),
      sparsityOnFitEnd s m = some m' → sparsityOnFitEnd s m' = some m') := by
  refine ⟨thresholdPruneModule_idem, ?_⟩
  intro s m m' hrun
  by_cases hs : s = 0
  · rw [sparsityOnFitEnd, if_pos hs] at hrun
    have h := Option.some.inj hrun
    subst h
    rw [sparsityOnFitEnd, if_pos hs]
  · rw [sparsityOnFitEnd, if_neg hs] at hrun
    cases hkth : kthSmallestAbs (flattenParams m.allParams)
        (pyInt (s * ((flattenParams m.allParams).length : ℚ))) with
    | none =>
      rw [hkth] at hrun
      exact Option.noConfusion hrun
    | some T =>
      rw [hkth] at hrun
      have hm' : sparsityPruneModule T m = m' := Option.some.inj hrun
      subst hm'
      obtain ⟨u, v, hsplit, hsplit'⟩ := sparsity_prune_flat_split T m
      have hlen : ((flattenParams (sparsityPruneModule T m).allParams).length : ℚ)
          = ((flattenParams m.allParams).length : ℚ) := by
        rw [hsplit, hsplit']
        simp
      have hkth' : kthSmallestAbs
          (flattenParams (sparsityPruneModule T m).allParams)
          (pyInt (s * ((flattenParams (sparsityPruneModule T m).allParams).length : ℚ)))
          = some T := by
        rw [hlen, hsplit']
        exact kthSmallestAbs_after_prune u v _ T (by rw [← hsplit]; exact hkth)
      rw [sparsityOnFitEnd, if_neg hs, hkth']
      exact congrArg some (sparsityPruneModule_idem T m)

/-! ### `LayerPruning` (structural layer removal) -/

/-- The student model's config fields touched by `LayerPruning`:
`num_layers` (encoder) and `num_decoder_layers`. -/
structure T5Config where
  num_layers : ℕ
  num_decoder_layers : ℕ
  deriving Repr, DecidableEq

/-- The student seq2seq model as `LayerPruning` sees it: the config with
the recorded layer counts and the indexable, deletable `encoder.block` and
`decoder.block` lists.  Layer blocks are abstract values of type `B`. -/
structure SeqModel (B : Type) where
  config : T5Config
  encoder_block : List B
  decoder_block : List B
  deriving DecidableEq

/-- `LayerPruning._layers_to_remove`: `range(1, final_size * 2, 2)`, the
odd indices `1, 3, ..., 2 * final_size - 1`. -/
def layersToRemove (final_size : ℕ) : List ℕ :=
  List.range' 1 final_size 2

/-- `for i in reversed(self._layers_to_remove(final_size)): del block[i]`:
left fold of `del` (`List.eraseIdx`) over the indices in descending
order. -/
def removeLayers {B : Type} (final_size : ℕ) (blocks : List B) : List B :=
  ((layersToRemove final_size).reverse).foldl List.eraseIdx blocks

/-- `LayerPruning.setup`: acts only in the `"fit"` stage; prunes the
decoder block list, then the encoder block list, each only when the
recorded config count differs from the target, and records the new
counts. -/
def layerPruningSetup {B : Type} (num_layers num_decoder_layers : ℕ)
    (stage : String) (model : SeqModel B) : SeqModel B :=
  if stage = "fit" then
    let model1 :=
      if model.config.num_decoder_layers ≠ num_decoder_layers then
        { model with
          decoder_block := removeLayers num_decoder_layers model.decoder_block
          config := { model.config with
            num_decoder_layers := num_decoder_layers } }
      else model
    if model1.config.num_layers ≠ num_layers then
      { model1 with
        encoder_block := removeLayers num_layers model1.encoder_block
        config := { model1.config with num_layers := num_layers } }
    else model1
  else model

/-- The even-indexed elements of a list. -/
def evens {B : Type} : List B → List B
  | [] => []
  | [a] => [a]
  | a :: _ :: rest => a :: evens rest

/-- `evens` distributes over an append at an even split point. -/
theorem evens_append {B : Type} :
    ∀ (l₁ l₂ : List B), l₁.length % 2 = 0 →
      evens (l₁ ++ l₂) = evens l₁ ++ evens l₂
  | [], l₂, _ => by simp [evens]
  | [a], _, h => by simp at h
  | a :: b :: rest, l₂, h => by
    have h' : rest.length % 2 = 0 := by
      simp only [List.length_cons] at h
      omega
    show a :: evens (rest ++ l₂) = a :: (evens rest ++ evens l₂)
    rw [evens_append rest l₂ h']

/-- `evens` keeps half the elements, rounded up. -/
theorem evens_length {B : Type} :
    ∀ (l : List B), (evens l).length = (l.length + 1) / 2
  | [] => by simp [evens]
  | [a] => by simp [evens]
  | a :: b :: rest => by
    simp only [evens, List.length_cons, evens_length rest]
    omega

/-- Deleting the odd indices `2t-1, 2t-3, ..., 1` (highest first) from a
list with at least `2t` elements keeps the even-indexed elements of the
first `2t` positions and the entire tail beyond them. -/
theorem removeLayers_eq_evens {B : Type} :
    ∀ (t : ℕ) (l : List B), 2 * t ≤ l.length →
      removeLayers t l = evens (l.take (2 * t)) ++ l.drop (2 * t) := by
  intro t
  induction t with
  | zero =>
    intro l _
    simp [removeLayers, layersToRemove, evens]
  | succ t ih =>
    intro l h
    have hidx : 2 * t + 1 < l.length := by omega
    have h2t : 2 * t < l.length := by omega
    have hstep : removeLayers (t + 1) l
        = removeLayers t (l.eraseIdx (2 * t + 1)) := by
      rw [removeLayers, removeLayers, layersToRemove, layersToRemove,
        List.range'_concat, List.reverse_append]
      simp only [List.reverse_singleton, List.singleton_append,
        List.foldl_cons]
      congr 2
      omega
    rw [hstep]
    have herase : l.eraseIdx (2 * t + 1)
        = l.take (2 * t + 1) ++ l.drop (2 * t + 2) :=
      List.eraseIdx_eq_take_drop_succ l (2 * t + 1)
    have hlen' : 2 * t ≤ (l.eraseIdx (2 * t + 1)).length := by
      rw [List.length_eraseIdx_of_lt hidx]
      omega
    rw [ih _ hlen']
    have htakelen : (l.take (2 * t + 1)).length = 2 * t + 1 := by
      rw [List.length_take]
      omega
    have htake : (l.eraseIdx (2 * t + 1)).take (2 * t) = l.take (2 * t) := by
      rw [herase, List.take_append_of_le_length (by omega),
        List.take_take]
      congr 1
      omega
    have hgetd : l.drop (2 * t) = l.get ⟨2 * t, h2t⟩ :: l.drop (2 * t + 1) :=
      List.drop_eq_get_cons h2t
    have hgetd' : l.drop (2 * t + 1)
        = l.get ⟨2 * t + 1, hidx⟩ :: l.drop (2 * t + 2) :=
      List.drop_eq_get_cons hidx
    have hdroptake : (l.take (2 * t + 1)).drop (2 * t)
        = [l.get ⟨2 * t, h2t⟩] := by
      rw [List.drop_take, show 2 * t + 1 - 2 * t = 1 from by omega, hgetd]
      rfl
    have hdrop : (l.eraseIdx (2 * t + 1)).drop (2 * t)
        = l.get ⟨2 * t, h2t⟩ :: l.drop (2 * t + 2) := by
      rw [herase, List.drop_append_of_le_length (by omega), hdroptake]
      rfl
    have htake2 : l.take (2 * (t + 1))
        = l.take (2 * t) ++ [l.get ⟨2 * t, h2t⟩, l.get ⟨2 * t + 1, hidx⟩] := by
      rw [show 2 * (t + 1) = 2 * t + 2 from by omega, List.take_add, hgetd,
        hgetd']
      rfl
    rw [htake, hdrop, htake2,
      evens_append (l.take (2 * t)) _ (by rw [List.length_take]; omega)]
    have hpair : evens [l.get ⟨2 * t, h2t⟩, l.get ⟨2 * t + 1, hidx⟩]
        = [l.get ⟨2 * t, h2t⟩] := rfl
    rw [hpair, show 2 * (t + 1) = 2 * t + 2 from by omega]
    simp

/-- C6: `LayerPruning.setup` mutates the model only in the `"fit"` stage;
for decoder and encoder independently, when the recorded config count
differs from the target `t` it deletes exactly the block entries at the
odd indices `1, 3, ..., 2t-1` (highest first), keeping the even-indexed
blocks of the first `2t` positions and everything beyond them — so a
`2t`-block list keeps exactly `t` blocks — and records the target count;
when the recorded count already equals the target the block list is
untouched, and a second application with the same targets is a no-op. -/
theorem layer_pruning_setup_spec {B : Type} (num_layers num_decoder_layers : ℕ)
    (stage : String) (model : SeqModel B)
    (henc : 2 * num_layers ≤ model.encoder_block.length)
    (hdec : 2 * num_decoder_layers ≤ model.decoder_block.length) :
    (stage ≠ "fit" →
      layerPruningSetup num_layers num_decoder_layers stage model = model)
    ∧ (layerPruningSetup num_layers num_decoder_layers "fit" model).config
        = T5Config.mk num_layers num_decoder_layers
    ∧ (model.config.num_decoder_layers ≠ num_decoder_layers →
        (layerPruningSetup num_layers num_decoder_layers "fit" model).decoder_block
          = evens (model.decoder_block.take (2 * num_decoder_layers))
            ++ model.decoder_block.drop (2 * num_decoder_layers)
        ∧ (layerPruningSetup num_layers num_decoder_layers "fit" model).decoder_block.length
          = model.decoder_block.length - num_decoder_layers)
    ∧ (model.config.num_decoder_layers = num_decoder_layers →
        (layerPruningSetup num_layers num_decoder_layers "fit" model).decoder_block
          = model.decoder_block)
    ∧ (model.config.num_layers ≠ num_layers →
        (layerPruningSetup num_layers num_decoder_layers "fit" model).encoder_block
          = evens (model.encoder_block.take (2 * num_layers))
            ++ model.encoder_block.drop (2 * num_layers)
        ∧ (layerPruningSetup num_layers num_decoder_layers "fit" model).encoder_block.length
          = model.encoder_block.length - num_layers)
    ∧ (model.config.num_layers = num_layers →
        (layerPruningSetup num_layers num_decoder_layers "fit" model).encoder_block
          = model.encoder_block)
    ∧ layerPruningSetup num_layers num_decoder_layers "fit"
        (layerPruningSetup num_layers num_decoder_layers "fit" model)
      = layerPruningSetup num_layers num_decoder_layers "fit" model := by
  obtain ⟨⟨cnl, cnd⟩, enc, dec⟩ := model
  simp only [SeqModel.encoder_block, SeqModel.decoder_block] at henc hdec
  have hlend : (evens (dec.take (2 * num_decoder_layers))
      ++ dec.drop (2 * num_decoder_layers)).length
      = dec.length - num_decoder_layers := by
    rw [List.length_append, evens_length, List.length_take,
      List.length_drop]
    omega
  have hlene : (evens (enc.take (2 * num_layers))
      ++ enc.drop (2 * num_layers)).length
      = enc.length - num_layers := by
    rw [List.length_append, evens_length, List.length_take,
      List.length_drop]
    omega
  refine ⟨?_, ?_, ?_, ?_, ?_, ?_, ?_⟩
  · intro hst
    rw [layerPruningSetup, if_neg hst]
  · by_cases hd : cnd = num_decoder_layers <;>
      by_cases he : cnl = num_layers <;>
        simp [layerPruningSetup, hd, he]
  · intro hdne
    simp only [SeqModel.config, T5Config.num_decoder_layers] at hdne
    by_cases he : cnl = num_layers <;>
      simp [layerPruningSetup, hdne, he,
        removeLayers_eq_evens num_decoder_layers dec hdec, hlend]
  · intro hdeq
    simp only [SeqModel.config, T5Config.num_decoder_layers] at hdeq
    by_cases he : cnl = num_layers <;>
      simp [layerPruningSetup, hdeq, he]
  · intro hene
    simp only [SeqModel.config, T5Config.num_layers] at hene
    by_cases hd : cnd = num_decoder_layers <;>
      simp [layerPruningSetup, hd, hene,
        removeLayers_eq_evens num_layers enc henc, hlene]
  · intro heeq
    simp only [SeqModel.config, T5Config.num_layers] at heeq
    by_cases hd : cnd = num_decoder_layers <;>
      simp [layerPruningSetup, hd, heeq]
  · by_cases hd : cnd = num_decoder_layers <;>
      by_cases he : cnl = num_layers <;>
        simp [layerPruningSetup, hd, he]

/-- Witness for C6: a 12-layer encoder pruned to 6 layers and an 8-layer
decoder pruned to 4, with a non-`"fit"` stage left untouched. -/
theorem layer_pruning_setup_spec_witness :
    ("test" ≠ "fit" →
      layerPruningSetup 6 4 "test"
          (SeqModel.mk (T5Config.mk 12 8)
            [0, 1, 2, 3, 4, 5, 6, 7, 8, 9, 10, 11] [0, 1, 2, 3, 4, 5, 6, 7])
        = SeqModel.mk (T5Config.mk 12 8)
            [0, 1, 2, 3, 4, 5, 6, 7, 8, 9, 10, 11] [0, 1, 2, 3, 4, 5, 6, 7])
    ∧ (layerPruningSetup 6 4 "fit"
        (SeqModel.mk (T5Config.mk 12 8)
          [0, 1, 2, 3, 4, 5, 6, 7, 8, 9, 10, 11] [0, 1, 2, 3, 4, 5, 6, 7])).config
      = T5Config.mk 6 4
    ∧ ((SeqModel.mk (T5Config.mk 12 8)
          [0, 1, 2, 3, 4, 5, 6, 7, 8, 9, 10, 11]
          [0, 1, 2, 3, 4, 5, 6, 7]).config.num_decoder_layers ≠ 4 →
        (layerPruningSetup 6 4 "fit"
          (SeqModel.mk (T5Config.mk 12 8)
            [0, 1, 2, 3, 4, 5, 6, 7, 8, 9, 10, 11] [0, 1, 2, 3, 4, 5, 6, 7])).decoder_block
          = evens (([0, 1, 2, 3, 4, 5, 6, 7] : List ℕ).take (2 * 4))
            ++ ([0, 1, 2, 3, 4, 5, 6, 7] : List ℕ).drop (2 * 4)
        ∧ (layerPruningSetup 6 4 "fit"
            (SeqModel.mk (T5Config.mk 12 8)
              [0, 1, 2, 3, 4, 5, 6, 7, 8, 9, 10, 11] [0, 1, 2, 3, 4, 5, 6, 7])).decoder_block.length
          = ([0, 1, 2, 3, 4, 5, 6, 7] : List ℕ).length - 4)
    ∧ ((SeqModel.mk (T5Config.mk 12 8)
          [0, 1, 2, 3, 4, 5, 6, 7, 8, 9, 10, 11]
          [0, 1, 2, 3, 4, 5, 6, 7]).config.num_decoder_layers = 4 →
        (layerPruningSetup 6 4 "fit"
          (SeqModel.mk (T5Config.mk 12 8)
            [0, 1, 2, 3, 4, 5, 6, 7, 8, 9, 10, 11] [0, 1, 2, 3, 4, 5, 6, 7])).decoder_block
          = [0, 1, 2, 3, 4, 5, 6, 7])
    ∧ ((SeqModel.mk (T5Config.mk 12 8)
          [0, 1, 2, 3, 4, 5, 6, 7, 8, 9, 10, 11]
          [0, 1, 2, 3, 4, 5, 6, 7]).config.num_layers ≠ 6 →
        (layerPruningSetup 6 4 "fit"
          (SeqModel.mk (T5Config.mk 12 8)
            [0, 1, 2, 3, 4, 5, 6, 7, 8, 9, 10, 11] [0, 1, 2, 3, 4, 5, 6, 7])).encoder_block
          = evens (([0, 1, 2, 3, 4, 5, 6, 7, 8, 9, 10, 11] : List ℕ).take (2 * 6))
            ++ ([0, 1, 2, 3, 4, 5, 6, 7, 8, 9, 10, 11] : List ℕ).drop (2 * 6)
        ∧ (layerPruningSetup 6 4 "fit"
            (SeqModel.mk (T5Config.mk 12 8)
              [0, 1, 2, 3, 4, 5, 6, 7, 8, 9, 10, 11] [0, 1, 2, 3, 4, 5, 6, 7])).encoder_block.length
          = ([0, 1, 2, 3, 4, 5, 6, 7, 8, 9, 10, 11] : List ℕ).length - 6)
    ∧ ((SeqModel.mk (T5Config.mk 12 8)
          [0, 1, 2, 3, 4, 5, 6, 7, 8, 9, 10, 11]
          [0, 1, 2, 3, 4, 5, 6, 7]).config.num_layers = 6 →
        (layerPruningSetup 6 4 "fit"
          (SeqModel.mk (T5Config.mk 12 8)
            [0, 1, 2, 3, 4, 5, 6, 7, 8, 9, 10, 11] [0, 1, 2, 3, 4, 5, 6, 7])).encoder_block
          = [0, 1, 2, 3, 4, 5, 6, 7, 8, 9, 10, 11])
    ∧ layerPruningSetup 6 4 "fit"
        (layerPruningSetup 6 4 "fit"
          (SeqModel.mk (T5Config.mk 12 8)
            [0, 1, 2, 3, 4, 5, 6, 7, 8, 9, 10, 11] [0, 1, 2, 3, 4, 5, 6, 7]))
      = layerPruningSetup 6 4 "fit"
          (SeqModel.mk (T5Config.mk 12 8)
            [0, 1, 2, 3, 4, 5, 6, 7, 8, 9, 10, 11] [0, 1, 2, 3, 4, 5, 6, 7]) :=
  layer_pruning_setup_spec 6 4 "test"
    (SeqModel.mk (T5Config.mk 12 8)
      [0, 1, 2, 3, 4, 5, 6, 7, 8, 9, 10, 11] [0, 1, 2, 3, 4, 5, 6, 7])
    (by decide) (by decide)

end BertSqueeze
